import Mathlib

/-!
Shallow embedding of `elasticsearch/connection_pool.py`.

Connection handles are opaque comparable identities; we model them as
natural numbers.  Timestamps and timeouts are modelled as naturals (the
code only compares and adds them).  The `PriorityQueue` used for the dead
set is modelled as a list kept sorted by the Python tuple order on
`(timestamp, connection)` pairs: `put` is ordered insertion and `get`
pops the head (the minimum).  Python dictionaries are modelled as
association lists.  Exceptions surface as `Option`: the selector returns
`none` exactly where Python would raise (indexing/modulo on an empty
list).  `randomize_hosts` only shuffles the initial list, so the pool is
built from the (possibly shuffled) list it receives.
-/

/-- Connection handle: an opaque comparable identity. -/
abbrev Conn := Nat

/-- Tuple comparison on `(timestamp, connection)` pairs, as used by the
Python `PriorityQueue` holding the dead entries. -/
def pqLe (a b : Nat × Nat) : Prop :=
  a.1 < b.1 ∨ (a.1 = b.1 ∧ a.2 ≤ b.2)

instance : DecidableRel pqLe := fun a b => by
  unfold pqLe; exact inferInstance

instance : IsTotal (Nat × Nat) pqLe := by
  constructor
  intro a b
  rcases a with ⟨a1, a2⟩
  rcases b with ⟨b1, b2⟩
  unfold pqLe
  simp only []
  omega

instance : IsTrans (Nat × Nat) pqLe := by
  constructor
  intro a b c
  rcases a with ⟨a1, a2⟩
  rcases b with ⟨b1, b2⟩
  rcases c with ⟨c1, c2⟩
  unfold pqLe
  simp only []
  omega

/-- The dead `PriorityQueue.put`: ordered insertion keeping the queue
sorted by eligibility timestamp. -/
def pqPut (q : List (Nat × Nat)) (x : Nat × Nat) : List (Nat × Nat) :=
  List.orderedInsert pqLe x q

/-- The sortedness invariant of the dead queue model. -/
def pqSorted (q : List (Nat × Nat)) : Prop :=
  List.Sorted pqLe q

instance (q : List (Nat × Nat)) : Decidable (pqSorted q) :=
  inferInstanceAs (Decidable (List.Sorted pqLe q))

/-- Python `dict.get(k)`: first (and, for a real dict, only) binding of `k`. -/
def dictFind? : List (Nat × Nat) → Nat → Option Nat
  | [], _ => none
  | kv :: rest, k => if kv.1 = k then some kv.2 else dictFind? rest k

/-- Python `dict.get(k, dflt)`. -/
def dictGet (d : List (Nat × Nat)) (k : Nat) (dflt : Nat) : Nat :=
  (dictFind? d k).getD dflt

/-- Python `dict[k] = v`. -/
def dictSet : List (Nat × Nat) → Nat → Nat → List (Nat × Nat)
  | [], k, v => [(k, v)]
  | kv :: rest, k, v => if kv.1 = k then (k, v) :: rest else kv :: dictSet rest k v

/-- Python `del dict[k]` wrapped in `try/except KeyError: pass`. -/
def dictDel : List (Nat × Nat) → Nat → List (Nat × Nat)
  | [], _ => []
  | kv :: rest, k => if kv.1 = k then rest else kv :: dictDel rest k

/-- The round-robin selector: holds the rotation cursor, initialised to
`-1` ("before the first element"). -/
structure RoundRobinSelector where
  rr : Int
  deriving DecidableEq

/-- `RoundRobinSelector.__init__`: cursor starts at `-1`. -/
def RoundRobinSelector.mkSelector : RoundRobinSelector := ⟨-1⟩

/-- `RoundRobinSelector.select`: `self.rr += 1; self.rr %= len(connections);
return connections[self.rr]`.  On an empty list Python raises
`ZeroDivisionError`; we return `none` there.  The index is always in
bounds in the `some` branch, so the `getD` default is never used. -/
def RoundRobinSelector.select (sel : RoundRobinSelector) (connections : List Conn) :
    Option (Conn × RoundRobinSelector) :=
  if connections.length = 0 then none
  else
    let rr2 : Int := (sel.rr + 1) % (connections.length : Int)
    some (connections.getD rr2.toNat 0, ⟨rr2⟩)

/-- The connection pool state: live list, dead priority queue, failure
counters and the (immutable) configuration. -/
structure ConnectionPool where
  connections : List Conn
  dead : List (Nat × Nat)
  dead_count : List (Nat × Nat)
  dead_timeout : Nat
  timeout_cutoff : Nat
  selector : RoundRobinSelector
  deriving DecidableEq

/-- `ConnectionPool.__init__` on an (optionally pre-shuffled) handle list:
empty dead queue, empty failure counters, fresh round-robin selector. -/
def ConnectionPool.init (connections : List Conn) (dead_timeout timeout_cutoff : Nat) :
    ConnectionPool :=
  { connections := connections
    dead := []
    dead_count := []
    dead_timeout := dead_timeout
    timeout_cutoff := timeout_cutoff
    selector := RoundRobinSelector.mkSelector }

/-- `ConnectionPool.mark_dead`: remove from the live list (first
occurrence, as `list.remove`); on `ValueError` (not present) return with
no change; otherwise bump the failure counter and enqueue the connection
with timeout `dead_timeout * 2 ** min(dead_count - 1, timeout_cutoff)`. -/
def ConnectionPool.mark_dead (s : ConnectionPool) (connection : Conn) (now : Nat) :
    ConnectionPool :=
  if connection ∈ s.connections then
    let dead_count := dictGet s.dead_count connection 0 + 1
    let timeout := s.dead_timeout * 2 ^ min (dead_count - 1) s.timeout_cutoff
    { s with
      connections := s.connections.erase connection
      dead_count := dictSet s.dead_count connection dead_count
      dead := pqPut s.dead (now + timeout, connection) }
  else s

/-- `ConnectionPool.mark_live`: delete the failure counter, ignoring
`KeyError`. -/
def ConnectionPool.mark_live (s : ConnectionPool) (connection : Conn) : ConnectionPool :=
  { s with dead_count := dictDel s.dead_count connection }

/-- `ConnectionPool.resurrect`: pop the minimum dead entry; push it back
if not yet eligible and not forced; otherwise append the connection to
the live list. -/
def ConnectionPool.resurrect (s : ConnectionPool) (force : Bool) (now : Nat) :
    ConnectionPool :=
  match s.dead with
  | [] => s
  | (timeout, connection) :: rest =>
    if force = false ∧ now < timeout then
      { s with dead := pqPut rest (timeout, connection) }
    else
      { s with dead := rest, connections := s.connections ++ [connection] }

/-- `ConnectionPool.get_connection`: non-forced resurrection, forced
resurrection if the live list is still empty, then selection. -/
def ConnectionPool.get_connection (s : ConnectionPool) (now : Nat) :
    Option Conn × ConnectionPool :=
  let s1 := s.resurrect false now
  let s2 := if s1.connections = [] then s1.resurrect true now else s1
  match s2.selector.select s2.connections with
  | none => (none, s2)
  | some (c, sel2) => (some c, { s2 with selector := sel2 })

/-- One public operation on the pool. -/
inductive PoolOp where
  | markDead (c : Conn) (now : Nat)
  | markLive (c : Conn)
  | resurrectOp (force : Bool) (now : Nat)
  | getConn (now : Nat)
  deriving DecidableEq

/-- State transition of one public operation. -/
def ConnectionPool.step (s : ConnectionPool) (op : PoolOp) : ConnectionPool :=
  match op with
  | .markDead c now => s.mark_dead c now
  | .markLive c => s.mark_live c
  | .resurrectOp f now => s.resurrect f now
  | .getConn now => (s.get_connection now).2

/-- Run a finite sequence of public operations. -/
def ConnectionPool.run (s : ConnectionPool) (ops : List PoolOp) : ConnectionPool :=
  ops.foldl ConnectionPool.step s

/-- All handles currently owned by the pool: live ones followed by the
connections of the dead entries. -/
def ConnectionPool.handles (s : ConnectionPool) : List Conn :=
  s.connections ++ s.dead.map Prod.snd

/-- Timestamp of the minimum dead entry (`0` when the dead queue is empty). -/
def headTimeout (s : ConnectionPool) : Nat :=
  match s.dead with
  | [] => 0
  | (t, _) :: _ => t

/-- Quarantine durations produced by `n` consecutive `mark_dead` calls at
time `0`, force-resurrecting the connection between failures so each
`mark_dead` finds it live, with no intervening `mark_live`. -/
def failureDurations (s : ConnectionPool) (c : Conn) : Nat → List Nat
  | 0 => []
  | n + 1 =>
    let s1 := s.mark_dead c 0
    headTimeout s1 :: failureDurations (s1.resurrect true 0) c n

/-- A sequence of non-forced `resurrect` calls at the given times. -/
def resurrectSeq (s : ConnectionPool) (ts : List Nat) : ConnectionPool :=
  ts.foldl (fun s t => s.resurrect false t) s

/-- Results and final selector of `n` consecutive `select` calls over a
fixed list. -/
def selectRun (sel : RoundRobinSelector) (l : List Conn) : Nat → List Conn × RoundRobinSelector
  | 0 => ([], sel)
  | n + 1 =>
    match sel.select l with
    | none => ([], sel)
    | some (c, sel2) =>
      let r := selectRun sel2 l n
      (c :: r.1, r.2)

theorem dictFind?_dictSet_self (d : List (Nat × Nat)) (k v : Nat) :
    dictFind? (dictSet d k v) k = some v := by
  induction d with
  | nil => simp [dictSet, dictFind?]
  | cons kv rest ih =>
    by_cases h : kv.1 = k
    · simp [dictSet, h, dictFind?]
    · simp [dictSet, h, dictFind?, ih]

theorem dictFind?_eq_none_of_not_mem (d : List (Nat × Nat)) (k : Nat)
    (h : k ∉ d.map Prod.fst) : dictFind? d k = none := by
  induction d with
  | nil => rfl
  | cons kv rest ih =>
    simp only [List.map_cons, List.mem_cons] at h
    push_neg at h
    have hk : ¬kv.1 = k := fun he => h.1 he.symm
    simp [dictFind?, hk, ih h.2]

theorem dictDel_of_find?_none (d : List (Nat × Nat)) (k : Nat)
    (h : dictFind? d k = none) : dictDel d k = d := by
  induction d with
  | nil => rfl
  | cons kv rest ih =>
    by_cases hk : kv.1 = k
    · simp [dictFind?, hk] at h
    · simp only [dictFind?, if_neg hk] at h
      simp [dictDel, hk, ih h]

theorem dictFind?_dictDel_self (d : List (Nat × Nat)) (k : Nat)
    (h : (d.map Prod.fst).Nodup) : dictFind? (dictDel d k) k = none := by
  induction d with
  | nil => rfl
  | cons kv rest ih =>
    simp only [List.map_cons, List.nodup_cons] at h
    by_cases hk : kv.1 = k
    · simp only [dictDel, if_pos hk]
      exact dictFind?_eq_none_of_not_mem rest k (hk ▸ h.1)
    · simp [dictDel, hk, dictFind?, ih h.2]

theorem pqPut_map_snd_perm (q : List (Nat × Nat)) (x : Nat × Nat) :
    ((pqPut q x).map Prod.snd).Perm (x.2 :: q.map Prod.snd) :=
  (List.perm_orderedInsert pqLe x q).map Prod.snd

theorem mem_pqPut {q : List (Nat × Nat)} {x y : Nat × Nat} :
    y ∈ pqPut q x ↔ y = x ∨ y ∈ q := by
  simp [pqPut, List.mem_orderedInsert]

theorem pqSorted_pqPut {q : List (Nat × Nat)} (x : Nat × Nat) (h : pqSorted q) :
    pqSorted (pqPut q x) :=
  List.Sorted.orderedInsert x q h

theorem pqLe_refl (a : Nat × Nat) : pqLe a a := Or.inr ⟨rfl, le_rfl⟩

theorem pqPut_head (t c : Nat) (rest : List (Nat × Nat))
    (hs : pqSorted ((t, c) :: rest)) : pqPut rest (t, c) = (t, c) :: rest := by
  cases rest with
  | nil => rfl
  | cons y ys =>
    have h1 : pqLe (t, c) y := List.rel_of_sorted_cons hs y (by simp)
    simp [pqPut, List.orderedInsert, h1]

theorem resurrect_nil (s : ConnectionPool) (f : Bool) (now : Nat)
    (h : s.dead = []) : s.resurrect f now = s := by
  simp [ConnectionPool.resurrect, h]

theorem resurrect_cons_wait (s : ConnectionPool) (t c : Nat) (rest : List (Nat × Nat))
    (now : Nat) (h : s.dead = (t, c) :: rest) (hn : now < t) :
    s.resurrect false now = { s with dead := pqPut rest (t, c) } := by
  simp [ConnectionPool.resurrect, h, hn]

theorem resurrect_cons_take (s : ConnectionPool) (f : Bool) (t c : Nat)
    (rest : List (Nat × Nat)) (now : Nat) (h : s.dead = (t, c) :: rest)
    (hf : f = true ∨ t ≤ now) :
    s.resurrect f now = { s with dead := rest, connections := s.connections ++ [c] } := by
  rcases hf with hf | hf
  · simp [ConnectionPool.resurrect, h, hf]
  · simp [ConnectionPool.resurrect, h, Nat.not_lt.mpr hf]

theorem handles_mark_live (s : ConnectionPool) (c : Conn) :
    (s.mark_live c).handles = s.handles := rfl

theorem handles_mark_dead (s : ConnectionPool) (c : Conn) (now : Nat) :
    (s.mark_dead c now).handles.Perm s.handles := by
  by_cases hc : c ∈ s.connections
  · simp only [ConnectionPool.mark_dead, if_pos hc, ConnectionPool.handles]
    exact ((List.Perm.append_left _ (pqPut_map_snd_perm _ _)).trans List.perm_middle).trans
      (List.Perm.append_right _ (List.perm_cons_erase hc).symm)
  · simp [ConnectionPool.mark_dead, hc]

theorem handles_resurrect (s : ConnectionPool) (f : Bool) (now : Nat) :
    (s.resurrect f now).handles.Perm s.handles := by
  rcases hd : s.dead with _ | ⟨⟨t, c⟩, rest⟩
  · rw [resurrect_nil s f now hd]
  · by_cases hcond : f = false ∧ now < t
    · rw [hcond.1, resurrect_cons_wait s t c rest now hd hcond.2]
      simp only [ConnectionPool.handles, hd]
      exact List.Perm.append_left _ (pqPut_map_snd_perm rest (t, c))
    · have hf : f = true ∨ t ≤ now := by
        rcases Bool.eq_false_or_eq_true f with h | h
        · exact Or.inl h
        · exact Or.inr (Nat.not_lt.mp fun hlt => hcond ⟨h, hlt⟩)
      rw [resurrect_cons_take s f t c rest now hd hf]
      simp only [ConnectionPool.handles, hd]
      rw [List.append_assoc]
      rfl

theorem handles_ne_nil_of_perm {l1 l2 : List Conn} (h : l1.Perm l2) (hne : l2 ≠ []) :
    l1 ≠ [] := by
  intro h1
  subst h1
  exact hne (List.Perm.eq_nil h.symm)

theorem select_isSome (sel : RoundRobinSelector) (l : List Conn) (h : l ≠ []) :
    (sel.select l).isSome = true := by
  simp [RoundRobinSelector.select, List.length_eq_zero, h]

theorem handles_selector_update (s : ConnectionPool) (sel : RoundRobinSelector) :
    ({ s with selector := sel } : ConnectionPool).handles = s.handles := rfl

theorem get_connection_snd_handles (s : ConnectionPool) (now : Nat) :
    ((s.get_connection now).2).handles.Perm s.handles := by
  have h1 := handles_resurrect s false now
  unfold ConnectionPool.get_connection
  by_cases h2 : (s.resurrect false now).connections = []
  · have h3 := (handles_resurrect (s.resurrect false now) true now).trans h1
    simp only [h2, if_pos rfl]
    rcases hsel : ((s.resurrect false now).resurrect true now).selector.select
        ((s.resurrect false now).resurrect true now).connections with _ | ⟨c2, sel2⟩
    · simpa [hsel] using h3
    · simpa [hsel] using h3
  · simp only [h2, if_neg h2]
    rcases hsel : (s.resurrect false now).selector.select
        (s.resurrect false now).connections with _ | ⟨c2, sel2⟩
    · simpa [hsel] using h1
    · simpa [hsel] using h1

theorem handles_step (s : ConnectionPool) (op : PoolOp) :
    (s.step op).handles.Perm s.handles := by
  cases op with
  | markDead c now => exact handles_mark_dead s c now
  | markLive c => exact (handles_mark_live s c) ▸ List.Perm.refl _
  | resurrectOp f now => exact handles_resurrect s f now
  | getConn now => exact get_connection_snd_handles s now

theorem handles_run (s : ConnectionPool) (ops : List PoolOp) :
    (s.run ops).handles.Perm s.handles := by
  induction ops generalizing s with
  | nil => exact List.Perm.refl _
  | cons op rest ih =>
    exact (ih (s.step op)).trans (handles_step s op)

theorem get_connection_isSome_of_handles (s : ConnectionPool) (now : Nat)
    (h : s.handles ≠ []) : ((s.get_connection now).1).isSome = true := by
  have h1 : (s.resurrect false now).handles ≠ [] :=
    handles_ne_nil_of_perm (handles_resurrect s false now) h
  unfold ConnectionPool.get_connection
  by_cases h2 : (s.resurrect false now).connections = []
  · have hd : (s.resurrect false now).dead ≠ [] := by
      intro hdd
      apply h1
      unfold ConnectionPool.handles
      rw [h2, hdd]
      rfl
    rcases hcons : (s.resurrect false now).dead with _ | ⟨⟨t, c⟩, rest⟩
    · exact absurd hcons hd
    · have h3 := resurrect_cons_take (s.resurrect false now) true t c rest now hcons
        (Or.inl rfl)
      have h4 : ((s.resurrect false now).resurrect true now).connections ≠ [] := by
        rw [h3]
        simp
      have h5 := select_isSome ((s.resurrect false now).resurrect true now).selector _ h4
      rcases hsel : ((s.resurrect false now).resurrect true now).selector.select
          ((s.resurrect false now).resurrect true now).connections with _ | ⟨c2, sel2⟩
      · rw [hsel] at h5
        simp at h5
      · simp [h2, hsel]
  · have h5 := select_isSome (s.resurrect false now).selector _ h2
    rcases hsel : (s.resurrect false now).selector.select
        (s.resurrect false now).connections with _ | ⟨c2, sel2⟩
    · rw [hsel] at h5
      simp at h5
    · simp [h2, hsel]

theorem select_nat_cursor (m : Nat) (l : List Conn) (h : l ≠ []) :
    RoundRobinSelector.select ⟨(m : Int)⟩ l =
      some (l.getD ((m + 1) % l.length) 0, ⟨(((m + 1) % l.length : Nat) : Int)⟩) := by
  have hlen : l.length ≠ 0 := by simpa [List.length_eq_zero] using h
  have hcast : ((m : Int) + 1) % (l.length : Int) = (((m + 1) % l.length : Nat) : Int) := by
    push_cast
    ring_nf
  unfold RoundRobinSelector.select
  rw [if_neg hlen]
  simp only [hcast, Int.toNat_natCast]

theorem select_fresh (l : List Conn) (h : l ≠ []) :
    RoundRobinSelector.mkSelector.select l = some (l.getD 0 0, ⟨((0 : Nat) : Int)⟩) := by
  have hlen : l.length ≠ 0 := by simpa [List.length_eq_zero] using h
  simp [RoundRobinSelector.mkSelector, RoundRobinSelector.select, hlen]

theorem selectRun_nat (l : List Conn) (h : l ≠ []) (k : Nat) :
    ∀ m : Nat, (selectRun ⟨(m : Int)⟩ l k).1 =
      (List.range k).map (fun j => l.getD ((m + 1 + j) % l.length) 0) := by
  induction k with
  | zero => intro m; rfl
  | succ k ih =>
    intro m
    simp only [selectRun, select_nat_cursor m l h]
    rw [ih ((m + 1) % l.length)]
    rw [List.range_succ_eq_map, List.map_cons, List.map_map]
    have hhead : l.getD ((m + 1) % l.length) 0 = l.getD ((m + 1 + 0) % l.length) 0 := by
      rw [Nat.add_zero]
    rw [hhead]
    congr 1
    apply List.map_congr_left
    intro j _
    show l.getD (((m + 1) % l.length + 1 + j) % l.length) 0 =
      l.getD ((m + 1 + Nat.succ j) % l.length) 0
    have hidx : ((m + 1) % l.length + 1 + j) % l.length =
        (m + 1 + Nat.succ j) % l.length := by
      rw [Nat.add_assoc, Nat.mod_add_mod]
      congr 1
      omega
    rw [hidx]

theorem selectRun_fresh (l : List Conn) (h : l ≠ []) (k : Nat) :
    (selectRun RoundRobinSelector.mkSelector l k).1 =
      (List.range k).map (fun j => l.getD (j % l.length) 0) := by
  cases k with
  | zero => rfl
  | succ k =>
    simp only [selectRun, select_fresh l h]
    rw [selectRun_nat l h k 0]
    rw [List.range_succ_eq_map, List.map_cons, List.map_map]
    have hhead : l.getD 0 0 = l.getD (0 % l.length) 0 := by
      rw [Nat.zero_mod]
    rw [hhead]
    congr 1
    apply List.map_congr_left
    intro j _
    show l.getD ((0 + 1 + j) % l.length) 0 = l.getD (Nat.succ j % l.length) 0
    have hidx : (0 + 1 + j) % l.length = Nat.succ j % l.length := by
      congr 1
      omega
    rw [hidx]

theorem map_range_getD (l : List Conn) :
    (List.range l.length).map (fun j => l.getD j 0) = l := by
  apply List.ext_getElem
  · simp
  · intro i h1 h2
    simp only [List.getElem_map, List.getElem_range]
    exact List.getD_eq_getElem l 0 h2

theorem selectRun_fresh_cycle (l : List Conn) (h : l ≠ []) :
    (selectRun RoundRobinSelector.mkSelector l l.length).1 = l := by
  rw [selectRun_fresh l h l.length]
  have : ∀ j ∈ List.range l.length,
      l.getD (j % l.length) 0 = l.getD j 0 := by
    intro j hj
    rw [List.mem_range] at hj
    rw [Nat.mod_eq_of_lt hj]
  rw [List.map_congr_left this, map_range_getD]

theorem selectRun_nat_perm (m : Nat) (l : List Conn) (h : l ≠ []) :
    ((selectRun ⟨(m : Int)⟩ l l.length).1).Perm l := by
  have hlen : 0 < l.length := List.length_pos.mpr h
  rw [selectRun_nat l h l.length m]
  have hrot : (List.range l.length).map (fun j => l.getD ((m + 1 + j) % l.length) 0) =
      l.rotate ((m + 1) % l.length) := by
    apply List.ext_getElem
    · simp [List.length_rotate]
    · intro i h1 h2
      simp only [List.getElem_map, List.getElem_range]
      have hidx : (i + (m + 1) % l.length) % l.length = (m + 1 + i) % l.length := by
        rw [Nat.add_mod_mod]
        congr 1
        omega
      rw [List.getElem_rotate]
      simp only [hidx]
      exact List.getD_eq_getElem l 0 (Nat.mod_lt _ hlen)
  rw [hrot]
  exact List.rotate_perm l _

theorem mark_dead_not_mem (s : ConnectionPool) (c : Conn) (now : Nat)
    (h : c ∉ s.connections) : s.mark_dead c now = s := by
  simp [ConnectionPool.mark_dead, h]

theorem init_handles (conns : List Conn) (dt tc : Nat) :
    (ConnectionPool.init conns dt tc).handles = conns := by
  simp [ConnectionPool.handles, ConnectionPool.init]

theorem run_get_connection_isSome (conns : List Conn) (dt tc : Nat) (ops : List PoolOp)
    (now : Nat) (h : conns ≠ []) :
    ((((ConnectionPool.init conns dt tc).run ops).get_connection now).1).isSome = true := by
  apply get_connection_isSome_of_handles
  apply handles_ne_nil_of_perm (handles_run _ ops)
  rw [init_handles]
  exact h

/-- C1: for every pool constructed with at least one connection, after any
finite sequence of `mark_dead`, `mark_live`, `resurrect` and
`get_connection` calls, `get_connection` returns a connection handle —
never an exception (`none`), even when every connection has been marked
dead. -/
theorem C1_get_connection_total (conns : List Conn) (dt tc : Nat) (ops : List PoolOp)
    (now : Nat) (h : conns ≠ []) :
    ((((ConnectionPool.init conns dt tc).run ops).get_connection now).1).isSome = true :=
  run_get_connection_isSome conns dt tc ops now h

theorem C1_witness :
    (([3, 4] : List Conn) ≠ []) ∧
    ((((ConnectionPool.init [3, 4] 60 5).run
        [PoolOp.markDead 3 0, PoolOp.markDead 4 0]).get_connection 1).1).isSome = true :=
  ⟨by decide,
    C1_get_connection_total [3, 4] 60 5 [PoolOp.markDead 3 0, PoolOp.markDead 4 0] 1
      (by decide)⟩

/-- C2 counterexample: with base timeout 60 and cutoff 5, six consecutive
failures (resurrected between failures, no `mark_live`) do NOT yield the
durations `60,120,240,480,960,960` claimed by the spec; the sixth
duration is `60 * 2 ^ min (6 - 1) 5 = 1920`. -/
theorem C2_counterexample :
    failureDurations (ConnectionPool.init [7] 60 5) 7 6 ≠
      [60, 120, 240, 480, 960, 960] ∧
    failureDurations (ConnectionPool.init [7] 60 5) 7 6 =
      [60, 120, 240, 480, 960, 1920] := by
  constructor
  · decide
  · decide

/-- C2 amended: with base timeout 60 and cutoff 5, failures 1..7 yield the
quarantine durations `60,120,240,480,960,1920,1920`: the sequence is
non-decreasing and becomes constant at `1920` from failure 6 (the first
failure whose exponent hits the cutoff) onward. -/
theorem C2_backoff_durations :
    failureDurations (ConnectionPool.init [7] 60 5) 7 7 =
      [60, 120, 240, 480, 960, 1920, 1920] ∧
    List.Sorted (· ≤ ·) (failureDurations (ConnectionPool.init [7] 60 5) 7 7) := by
  constructor
  · decide
  · decide

/-- C3: when `mark_dead` finds the connection live, it increments that
connection's consecutive-failure counter (1 after a fresh failure),
computes `base_timeout * 2 ^ min (failures - 1) cutoff`, and inserts
`(now + duration, connection)` into the dead queue (stated as a multiset
equation), while removing the connection from the live list. -/
theorem C3_mark_dead_spec (s : ConnectionPool) (c : Conn) (now : Nat)
    (h : c ∈ s.connections) :
    dictGet (s.mark_dead c now).dead_count c 0 = dictGet s.dead_count c 0 + 1 ∧
    (dictFind? s.dead_count c = none → dictGet (s.mark_dead c now).dead_count c 0 = 1) ∧
    ((s.mark_dead c now).dead).Perm
      ((now + s.dead_timeout *
          2 ^ min (dictGet s.dead_count c 0 + 1 - 1) s.timeout_cutoff, c) :: s.dead) ∧
    (s.mark_dead c now).connections = s.connections.erase c := by
  refine ⟨?_, ?_, ?_, ?_⟩
  · simp [ConnectionPool.mark_dead, h, dictGet, dictFind?_dictSet_self]
  · intro hf
    simp [ConnectionPool.mark_dead, h, dictGet, dictFind?_dictSet_self, hf]
  · simp only [ConnectionPool.mark_dead, if_pos h]
    exact List.perm_orderedInsert _ _ _
  · simp [ConnectionPool.mark_dead, h]

theorem C3_witness :
    ((5 : Conn) ∈ (ConnectionPool.init [5] 60 3).connections) ∧
    dictGet ((ConnectionPool.init [5] 60 3).mark_dead 5 2).dead_count 5 0 =
      dictGet (ConnectionPool.init [5] 60 3).dead_count 5 0 + 1 :=
  ⟨by decide, (C3_mark_dead_spec (ConnectionPool.init [5] 60 3) 5 2 (by decide)).1⟩

/-- C4: in every state reachable from construction, the live and dead
handles together are a permutation of the handles supplied at
construction; when those are duplicate-free, the live list has no
duplicates, the dead queue holds each handle at most once, and no handle
is simultaneously live and dead. -/
theorem C4_partition_invariant (conns : List Conn) (dt tc : Nat) (ops : List PoolOp) :
    (((ConnectionPool.init conns dt tc).run ops).handles).Perm conns ∧
    (conns.Nodup →
      ((ConnectionPool.init conns dt tc).run ops).connections.Nodup ∧
      (((ConnectionPool.init conns dt tc).run ops).dead.map Prod.snd).Nodup ∧
      ∀ c, ¬(c ∈ ((ConnectionPool.init conns dt tc).run ops).connections ∧
        c ∈ ((ConnectionPool.init conns dt tc).run ops).dead.map Prod.snd)) := by
  have hperm : (((ConnectionPool.init conns dt tc).run ops).handles).Perm conns := by
    have h := handles_run (ConnectionPool.init conns dt tc) ops
    rw [init_handles] at h
    exact h
  refine ⟨hperm, fun hnd => ?_⟩
  have hnodup : (((ConnectionPool.init conns dt tc).run ops).handles).Nodup :=
    hperm.nodup_iff.mpr hnd
  rw [ConnectionPool.handles, List.nodup_append] at hnodup
  exact ⟨hnodup.1, hnodup.2.1, fun c hc => hnodup.2.2 hc.1 hc.2⟩

theorem C4_witness :
    ((((ConnectionPool.init [1, 2] 60 5).run [PoolOp.markDead 1 0]).handles).Perm [1, 2]) ∧
    (([1, 2] : List Conn).Nodup ∧
      ((ConnectionPool.init [1, 2] 60 5).run [PoolOp.markDead 1 0]).connections.Nodup) :=
  ⟨(C4_partition_invariant [1, 2] 60 5 [PoolOp.markDead 1 0]).1,
    by decide,
    ((C4_partition_invariant [1, 2] 60 5 [PoolOp.markDead 1 0]).2 (by decide)).1⟩

/-- C5: the round-robin cursor starts at `-1` (before the first element);
on a non-empty list each `select` advances the cursor by one modulo the
list length and returns the element at the cursor; hence over a stable
list of size N, the first N calls from a fresh selector return exactly the
list itself (first call = first element), and from any reachable cursor N
consecutive calls return each element exactly once (a permutation),
cycling. -/
theorem C5_round_robin :
    RoundRobinSelector.mkSelector.rr = -1 ∧
    (∀ (sel : RoundRobinSelector) (l : List Conn), l ≠ [] →
      sel.select l = some (l.getD (((sel.rr + 1) % (l.length : Int)).toNat) 0,
        ⟨(sel.rr + 1) % (l.length : Int)⟩)) ∧
    (∀ l : List Conn, l ≠ [] →
      (selectRun RoundRobinSelector.mkSelector l l.length).1 = l) ∧
    (∀ (m : Nat) (l : List Conn), l ≠ [] →
      ((selectRun ⟨(m : Int)⟩ l l.length).1).Perm l) := by
  refine ⟨rfl, ?_, selectRun_fresh_cycle, selectRun_nat_perm⟩
  intro sel l h
  have hlen : l.length ≠ 0 := by simpa [List.length_eq_zero] using h
  unfold RoundRobinSelector.select
  rw [if_neg hlen]

theorem C5_witness :
    (([4, 5, 6] : List Conn) ≠ []) ∧
    (selectRun RoundRobinSelector.mkSelector [4, 5, 6] 3).1 = [4, 5, 6] :=
  ⟨by decide, C5_round_robin.2.2.1 [4, 5, 6] (by decide)⟩

/-- C6: `mark_dead` on a connection that is not in the live list is a
no-op (whole state unchanged, no exception), and with a duplicate-free
live list a second `mark_dead` in a row changes nothing further: no
second dead entry, no second counter increment. -/
theorem C6_mark_dead_noop (s : ConnectionPool) (c : Conn) (now now2 : Nat) :
    (c ∉ s.connections → s.mark_dead c now = s) ∧
    (s.connections.Nodup →
      (s.mark_dead c now).mark_dead c now2 = s.mark_dead c now) := by
  constructor
  · exact mark_dead_not_mem s c now
  · intro hnd
    by_cases hc : c ∈ s.connections
    · have h2 : c ∉ (s.mark_dead c now).connections := by
        simp only [ConnectionPool.mark_dead, if_pos hc]
        exact hnd.not_mem_erase
      exact mark_dead_not_mem _ c now2 h2
    · rw [mark_dead_not_mem s c now hc, mark_dead_not_mem s c now2 hc]

theorem C6_witness :
    ((3 : Conn) ∉ (ConnectionPool.init [4] 60 5).connections ∧
      (ConnectionPool.init [4] 60 5).mark_dead 3 0 = ConnectionPool.init [4] 60 5) ∧
    ((ConnectionPool.init [4] 60 5).mark_dead 4 0).mark_dead 4 1 =
      (ConnectionPool.init [4] 60 5).mark_dead 4 0 :=
  ⟨⟨by decide, (C6_mark_dead_noop (ConnectionPool.init [4] 60 5) 3 0 0).1 (by decide)⟩,
    (C6_mark_dead_noop (ConnectionPool.init [4] 60 5) 4 0 1).2 (by decide)⟩

/-- C7: `mark_live` only deletes the failure counter — live list and dead
queue are untouched; it is a no-op when no counter exists; and (for a
well-formed counter table) after `mark_live` the counter is gone, so a
subsequent `mark_dead` quarantines for exactly the base timeout. -/
theorem C7_mark_live_frame (s : ConnectionPool) (c : Conn) (now : Nat) :
    (s.mark_live c).connections = s.connections ∧
    (s.mark_live c).dead = s.dead ∧
    (s.mark_live c).dead_count = dictDel s.dead_count c ∧
    (dictFind? s.dead_count c = none → s.mark_live c = s) ∧
    ((s.dead_count.map Prod.fst).Nodup →
      dictFind? (s.mark_live c).dead_count c = none ∧
      (c ∈ s.connections →
        ((s.mark_live c).mark_dead c now).dead.Perm
          ((now + s.dead_timeout, c) :: s.dead))) := by
  refine ⟨rfl, rfl, rfl, ?_, ?_⟩
  · intro h
    show ({ s with dead_count := dictDel s.dead_count c } : ConnectionPool) = s
    rw [dictDel_of_find?_none s.dead_count c h]
  · intro hnd
    have hdel : dictFind? (dictDel s.dead_count c) c = none :=
      dictFind?_dictDel_self s.dead_count c hnd
    refine ⟨hdel, fun hc => ?_⟩
    have hc2 : c ∈ (s.mark_live c).connections := hc
    have hstep : ((s.mark_live c).mark_dead c now).dead =
        pqPut s.dead (now + s.dead_timeout, c) := by
      simp only [ConnectionPool.mark_dead, if_pos hc2]
      have hget : dictGet (s.mark_live c).dead_count c 0 = 0 := by
        simp [ConnectionPool.mark_live, dictGet, hdel]
      rw [hget]
      simp only [Nat.add_sub_cancel, Nat.zero_min, pow_zero, mul_one]
      rfl
    rw [hstep]
    exact List.perm_orderedInsert _ _ _

theorem C7_witness :
    (((ConnectionPool.init [9] 60 5).mark_live 9).connections =
      (ConnectionPool.init [9] 60 5).connections) ∧
    (dictFind? (ConnectionPool.init [9] 60 5).dead_count 9 = none ∧
      (ConnectionPool.init [9] 60 5).mark_live 9 = ConnectionPool.init [9] 60 5) :=
  ⟨(C7_mark_live_frame (ConnectionPool.init [9] 60 5) 9 0).1,
    by decide,
    (C7_mark_live_frame (ConnectionPool.init [9] 60 5) 9 0).2.2.2.1 (by decide)⟩

/-- C8: `resurrect` inspects only the minimum dead entry: empty dead queue
means no change; with `force` false and the minimum timestamp still in the
future the state is exactly unchanged (entry pushed back); otherwise the
connection of that minimum entry is appended to the live list, its dead
entry removed, and the failure counters untouched. -/
theorem C8_resurrect_spec (s : ConnectionPool) (force : Bool) (now : Nat)
    (hs : pqSorted s.dead) :
    (s.dead = [] → s.resurrect force now = s) ∧
    (∀ t c rest, s.dead = (t, c) :: rest →
      (∀ e ∈ s.dead, pqLe (t, c) e) ∧
      (force = false → now < t → s.resurrect force now = s) ∧
      (force = true ∨ t ≤ now →
        s.resurrect force now =
          { s with connections := s.connections ++ [c], dead := rest })) := by
  refine ⟨resurrect_nil s force now, fun t c rest hd => ⟨?_, ?_, ?_⟩⟩
  · intro e he
    rw [hd] at he
    rcases List.mem_cons.mp he with he | he
    · rw [he]
      exact pqLe_refl _
    · rw [hd] at hs
      exact List.rel_of_sorted_cons hs e he
  · intro hf hn
    rw [hf]
    rw [resurrect_cons_wait s t c rest now hd hn]
    have hput : pqPut rest (t, c) = (t, c) :: rest := pqPut_head t c rest (hd ▸ hs)
    rw [hput, ← hd]
  · exact resurrect_cons_take s force t c rest now hd

theorem C8_witness :
    pqSorted ((ConnectionPool.init [1] 60 5).mark_dead 1 0).dead ∧
    ((ConnectionPool.init [1] 60 5).mark_dead 1 0).resurrect false 10 =
      (ConnectionPool.init [1] 60 5).mark_dead 1 0 :=
  ⟨by decide,
    (((C8_resurrect_spec ((ConnectionPool.init [1] 60 5).mark_dead 1 0) false 10
        (by decide)).2 60 1 [] (by decide)).2.1) rfl (by decide)⟩

theorem resurrectSeq_keeps_out (c : Conn) (T : Nat) :
    ∀ (ts : List Nat) (s : ConnectionPool),
      c ∉ s.connections → (∀ e ∈ s.dead, e.2 = c → T ≤ e.1) →
      (∀ t ∈ ts, t < T) →
      c ∉ (resurrectSeq s ts).connections ∧
      (∀ e ∈ (resurrectSeq s ts).dead, e.2 = c → T ≤ e.1) := by
  intro ts
  induction ts with
  | nil => exact fun s h1 h2 _ => ⟨h1, h2⟩
  | cons t ts ih =>
    intro s h1 h2 h3
    have ht : t < T := h3 t (List.mem_cons_self t ts)
    have hstep : c ∉ (s.resurrect false t).connections ∧
        (∀ e ∈ (s.resurrect false t).dead, e.2 = c → T ≤ e.1) := by
      rcases hd : s.dead with _ | ⟨⟨u, d⟩, rest⟩
      · rw [resurrect_nil s false t hd]
        exact ⟨h1, h2⟩
      · by_cases hu : t < u
        · rw [resurrect_cons_wait s u d rest t hd hu]
          refine ⟨h1, fun e he hec => ?_⟩
          have hmem : e ∈ s.dead := by
            rw [hd]
            rcases mem_pqPut.mp he with h | h
            · exact List.mem_cons.mpr (Or.inl h)
            · exact List.mem_cons_of_mem _ h
          exact h2 e hmem hec
        · have hle : u ≤ t := Nat.not_lt.mp hu
          rw [resurrect_cons_take s false u d rest t hd (Or.inr hle)]
          have hdc : d ≠ c := by
            intro hdc
            have := h2 (u, d) (by rw [hd]; exact List.mem_cons_self _ _) hdc
            omega
          refine ⟨?_, fun e he hec =>
            h2 e (by rw [hd]; exact List.mem_cons_of_mem _ he) hec⟩
          intro hcm
          rcases List.mem_append.mp hcm with hcm | hcm
          · exact h1 hcm
          · exact hdc (List.mem_singleton.mp hcm).symm
    exact ih (s.resurrect false t) hstep.1 hstep.2
      (fun t' ht' => h3 t' (List.mem_cons_of_mem _ ht'))

/-- C9: after a successful `mark_dead` (connection was live), the
connection stays out of the live list under any sequence of non-forced
`resurrect` calls at times strictly before `now + quarantine duration`. -/
theorem C9_quarantine (s : ConnectionPool) (c : Conn) (now : Nat) (ts : List Nat)
    (hin : c ∈ s.connections) (hnd : s.connections.Nodup)
    (hdead : ∀ e ∈ s.dead, e.2 ≠ c)
    (hts : ∀ t ∈ ts, t < now + s.dead_timeout *
      2 ^ min (dictGet s.dead_count c 0 + 1 - 1) s.timeout_cutoff) :
    c ∉ (resurrectSeq (s.mark_dead c now) ts).connections := by
  set T := now + s.dead_timeout *
    2 ^ min (dictGet s.dead_count c 0 + 1 - 1) s.timeout_cutoff with hT
  have h1 : c ∉ (s.mark_dead c now).connections := by
    simp only [ConnectionPool.mark_dead, if_pos hin]
    exact hnd.not_mem_erase
  have h2 : ∀ e ∈ (s.mark_dead c now).dead, e.2 = c → T ≤ e.1 := by
    intro e he hec
    simp only [ConnectionPool.mark_dead, if_pos hin] at he
    rcases mem_pqPut.mp he with h | h
    · rw [h]
    · exact absurd hec (hdead e h)
  exact (resurrectSeq_keeps_out c T ts (s.mark_dead c now) h1 h2 hts).1

theorem C9_witness :
    (2 : Conn) ∉ (resurrectSeq ((ConnectionPool.init [2, 3] 60 5).mark_dead 2 10)
      [30, 69]).connections :=
  C9_quarantine (ConnectionPool.init [2, 3] 60 5) 2 10 [30, 69] (by decide) (by decide)
    (by decide) (by decide)

/-- C10: a pool constructed from the empty list never hands out a
connection: `get_connection` hits the selector on an empty sequence and
fails (`none`, modelling the raised exception), both sets stay empty and
resurrection is a no-op; conversely any pool constructed from a non-empty
list never returns `none`. -/
theorem C10_empty_pool (dt tc now now2 : Nat) (f : Bool) :
    ((ConnectionPool.init [] dt tc).get_connection now).1 = none ∧
    ((ConnectionPool.init [] dt tc).get_connection now).2.connections = [] ∧
    ((ConnectionPool.init [] dt tc).get_connection now).2.dead = [] ∧
    (ConnectionPool.init [] dt tc).resurrect f now2 = ConnectionPool.init [] dt tc ∧
    (∀ sel : RoundRobinSelector, sel.select [] = none) ∧
    (∀ (conns : List Conn) (dt2 tc2 : Nat) (ops : List PoolOp) (now3 : Nat),
      conns ≠ [] →
      (((ConnectionPool.init conns dt2 tc2).run ops).get_connection now3).1 ≠ none) := by
  refine ⟨rfl, rfl, rfl, resurrect_nil _ f now2 rfl, fun sel => rfl, ?_⟩
  intro conns dt2 tc2 ops now3 hne hnone
  have h := run_get_connection_isSome conns dt2 tc2 ops now3 hne
  rw [hnone] at h
  simp at h

theorem C10_witness :
    ((ConnectionPool.init [] 60 5).get_connection 0).1 = none ∧
    (((ConnectionPool.init [2] 60 5).run []).get_connection 0).1 ≠ none :=
  ⟨(C10_empty_pool 60 5 0 0 false).1,
    (C10_empty_pool 60 5 0 0 false).2.2.2.2.2 [2] 60 5 [] 0 (by decide)⟩
